import Mathlib

/-!
Verification of the Multi-Modal-RAG-Chatbot core: the structure-aware
chunker `partition_and_chunk` (src/data_processing.py) and the hybrid
retriever builder `create_retriever` (src/vector_store.py), shallowly
embedded in Lean.  External collaborators (the PDF layout extractor, the
image/table summarization model, the embedding model) are modelled as
parameters: the layout extractor's output is the input element list, the
summarizers are oracles returning `Option String` (`none` = the call
raised an exception).
-/

namespace RAG

/-- The element kinds that `partition_and_chunk` dispatches on
(`unstructured.documents.elements`): Title, Header, NarrativeText,
ListItem, Text, Image, Table. -/
inductive ElKind where
  | Title
  | Header
  | NarrativeText
  | ListItem
  | Text
  | Image
  | Table
deriving DecidableEq

/-- The element-metadata fields read by `partition_and_chunk`:
`el.metadata.page_number` (may be `None`), `el.metadata.image_path`
(for images) and `el.metadata.text_as_html` (for tables). -/
structure ElMeta where
  page_number : Option Nat
  image_path : Option String
  text_as_html : Option String
deriving DecidableEq

/-- A layout element: its kind, its `.text`, and its `.metadata`. -/
structure El where
  kind : ElKind
  text : String
  metadata : ElMeta
deriving DecidableEq

/-- The metadata dict built for each emitted document:
`{"source": basename(pdf_path), "page_number": el.metadata.page_number or 1,
"element_id": i}`. -/
structure DocMeta where
  source : String
  page_number : Nat
  element_id : Nat
deriving DecidableEq

/-- A langchain `Document`: `page_content` plus metadata. -/
structure Document where
  page_content : String
  metadata : DocMeta
deriving DecidableEq

/-- Python emptiness test of a string (used for truthiness: `""` is
falsy). -/
def pyEmpty (s : String) : Bool := s.data.isEmpty

/-- Python `str.strip()`: drop whitespace from both ends. -/
def pyStrip (s : String) : String :=
  ⟨((s.data.dropWhile Char.isWhitespace).reverse.dropWhile
      Char.isWhitespace).reverse⟩

/-- Python truthiness of an optional string: `None` and `""` are falsy. -/
def strTruthy : Option String → Bool
  | none => false
  | some s => !pyEmpty s

/-- Python `el.metadata.page_number or 1`: `None` and `0` are falsy. -/
def pageOrOne : Option Nat → Nat
  | none => 1
  | some n => if n = 0 then 1 else n

/-- `os.path.basename` on a POSIX path: everything after the last `/`. -/
def basename (p : String) : String :=
  ⟨(p.data.reverse.takeWhile (fun c => c ≠ '/')).reverse⟩

/-- The metadata dict computed at the top of each loop iteration of
`partition_and_chunk` for element `el` at enumeration index `i`. -/
def mkMeta (pdf_path : String) (el : El) (i : Nat) : DocMeta :=
  { source := basename pdf_path
    page_number := pageOrOne el.metadata.page_number
    element_id := i }

/-- The loop state of `partition_and_chunk`: the accumulated `documents`
list, `current_title`, `current_text_block`, and the `metadata` local
variable left over from the most recent iteration (used by the final
flush after the loop; `none` before the first iteration). -/
structure ChunkState where
  documents : List Document
  current_title : String
  current_text_block : String
  last_meta : Option DocMeta
deriving DecidableEq

/-- A flushed text-block document:
`Document(page_content=f"{current_title}\n\n{current_text_block.strip()}",
metadata=metadata)`. -/
def flushDoc (title block : String) (m : DocMeta) : Document :=
  { page_content := title ++ "\n\n" ++ pyStrip block, metadata := m }

/-- `if current_text_block: documents.append(...)` — the documents list
after flushing a pending text block (if any) with metadata `m`. -/
def flushedDocs (s : ChunkState) (m : DocMeta) : List Document :=
  if s.current_text_block = "" then s.documents
  else s.documents ++ [flushDoc s.current_title s.current_text_block m]

/-- `isinstance(el, (Title, Header))` — the first dispatch check of the
loop (line 70). -/
def isTitleHeader (el : El) : Bool :=
  match el.kind with
  | .Title | .Header => true
  | _ => false

/-- `isinstance(el, (NarrativeText, ListItem, Text))` — the second
dispatch check (line 79).  In `unstructured`, `Image` and `Table` are
subclasses of `Text`, so this check is also true for them. -/
def isTextKind (el : El) : Bool :=
  match el.kind with
  | .NarrativeText | .ListItem | .Text | .Image | .Table => true
  | _ => false

/-- One iteration of the `for i, el in enumerate(raw_pdf_elements)` loop
of `partition_and_chunk`, with Python's isinstance dispatch in source
order.  `summarizeImage` models the `encode_image`/`summarize_image`
pipeline on the element (`none` = some step raised), `summarizeTable`
models `summarize_table` on the HTML.  Because `isTextKind` already
captures Image and Table elements, the enhanced summarize-or-fallback
branch (source lines 82-103) is unreachable for every element kind. -/
def step (pdf_path : String) (use_enhanced_processing : Bool)
    (summarizeImage : El → Option String)
    (summarizeTable : String → Option String)
    (s : ChunkState) (ie : Nat × El) : ChunkState :=
  let i := ie.1
  let el := ie.2
  let metadata := mkMeta pdf_path el i
  if isTitleHeader el then
    { documents := flushedDocs s metadata
      current_title := el.text
      current_text_block := ""
      last_meta := some metadata }
  else if isTextKind el then
    { s with
      current_text_block := s.current_text_block ++ el.text ++ "\n"
      last_meta := some metadata }
  else if use_enhanced_processing then
    let flushed := flushedDocs s metadata
    let docs :=
      if el.kind = ElKind.Image then
        flushed ++
          [⟨(match summarizeImage el with
             | some summary =>
                 "[Image under '" ++ s.current_title ++ "']\nSummary: " ++ summary
             | none => "[Image under '" ++ s.current_title ++ "']"), metadata⟩]
      else if el.kind = ElKind.Table then
        match el.metadata.text_as_html with
        | some html =>
            if pyEmpty html then flushed
            else
              flushed ++
                [⟨(match summarizeTable html with
                   | some summary =>
                       "[Table under '" ++ s.current_title ++ "']\nSummary: " ++
                         summary
                   | none => "[Table under '" ++ s.current_title ++ "']"), metadata⟩]
        | none => flushed
      else flushed
    { documents := docs
      current_title := s.current_title
      current_text_block := ""
      last_meta := some metadata }
  else { s with last_meta := some metadata }

/-- The loop state before the first iteration. -/
def initState : ChunkState := ⟨[], "", "", none⟩

/-- The loop of `partition_and_chunk`, folded over the enumerated
element list. -/
def chunkFold (pdf_path : String) (use_enhanced_processing : Bool)
    (summarizeImage : El → Option String)
    (summarizeTable : String → Option String)
    (elements : List El) : ChunkState :=
  elements.enum.foldl
    (step pdf_path use_enhanced_processing summarizeImage summarizeTable)
    initState

/-- `partition_and_chunk` (src/data_processing.py).  The element list is
the output of the external `partition_pdf` collaborator.  `Except.error`
models a raised exception: the `ValueError` of the key precondition, or
the `NameError` that the final flush would hit if the loop never ran
(unreachable, since a non-empty text block implies a past iteration). -/
def partition_and_chunk (pdf_path : String) (elements : List El)
    (use_enhanced_processing : Bool) (openai_api_key : Option String)
    (summarizeImage : El → Option String)
    (summarizeTable : String → Option String) :
    Except String (List Document) :=
  if use_enhanced_processing && !strTruthy openai_api_key then
    .error "OpenAI API key is required for enhanced processing."
  else
    let s := chunkFold pdf_path use_enhanced_processing summarizeImage
      summarizeTable elements
    if s.current_text_block = "" then .ok s.documents
    else
      match s.last_meta with
      | some m =>
          .ok (s.documents ++ [flushDoc s.current_title s.current_text_block m])
      | none => .error "NameError: name 'metadata' is not defined"

/-- `OpenAIEmbeddings(model="text-embedding-3-large", api_key=...)`. -/
structure OpenAIEmbeddings where
  model : String
  api_key : String
deriving DecidableEq

/-- `vectorstore.as_retriever(search_kwargs={"k": 10})` over a Chroma
store built from the documents with the given embedding function. -/
structure DenseRetriever where
  documents : List Document
  embedding_function : OpenAIEmbeddings
  search_k : Nat
deriving DecidableEq

/-- `BM25Retriever.from_documents(documents)` with its `k` field. -/
structure BM25Retriever where
  documents : List Document
  k : Nat
deriving DecidableEq

/-- `EnsembleRetriever(retrievers=[dense, bm25], weights=[0.7, 0.3])`.
The float weights are modelled as exact rationals. -/
structure EnsembleRetriever where
  dense : DenseRetriever
  bm25 : BM25Retriever
  weight_dense : ℚ
  weight_sparse : ℚ
deriving DecidableEq

/-- `create_retriever` (src/vector_store.py).  In Python `k` defaults
to 5 and is never read.  `Except.error` models a raised exception,
`Option` the `None` return: on an empty document list the function logs
a warning and returns `None` (it does not raise). -/
def create_retriever (documents : List Document) (openai_api_key : String)
    (k : Nat) : Except String (Option EnsembleRetriever) :=
  if documents.isEmpty then .ok none
  else
    .ok (some
      { dense :=
          { documents := documents
            embedding_function :=
              { model := "text-embedding-3-large", api_key := openai_api_key }
            search_k := 10 }
        bm25 := { documents := documents, k := 10 }
        weight_dense := 7/10
        weight_sparse := 3/10 })

deriving instance DecidableEq for Except

/-! ### Concrete inputs used by witnesses and counterexamples -/

/-- Element metadata with every optional field absent. -/
def bareMeta : ElMeta := ⟨none, none, none⟩

/-- The four-element scenario of the spec: two titled sections. -/
def scenarioElements : List El :=
  [⟨.Title, "Intro", bareMeta⟩, ⟨.NarrativeText, "Hello world.", bareMeta⟩,
   ⟨.Title, "Section 2", bareMeta⟩, ⟨.NarrativeText, "More text.", bareMeta⟩]

/-- A narrative-text element. -/
def narrEl : El := ⟨.NarrativeText, "Hello world.", bareMeta⟩

/-- An image element on page 2 with an extracted image file. -/
def imageEl : El := ⟨.Image, "", ⟨some 2, some "temp_data/images/figure-1.jpg", none⟩⟩

/-- A table element on page 3 with extracted HTML. -/
def tableEl : El :=
  ⟨.Table, "", ⟨some 3, none, some "<table><tr><td>1</td></tr></table>"⟩⟩

/-- Oracle for an image-summarization collaborator whose calls always
raise. -/
def failSumm : El → Option String := fun _ => none

/-- Oracle for a table-summarization collaborator whose calls always
raise. -/
def failTableSumm : String → Option String := fun _ => none

/-- A mid-pass loop state: one section title seen, one sentence pending. -/
def midState : ChunkState := ⟨[], "Intro", "Hello world.\n", none⟩

/-- A one-document collection for the retriever. -/
def oneDoc : Document := ⟨"Intro\n\nHello world.", ⟨"doc.pdf", 1, 2⟩⟩

/-! ### Helper lemmas -/

theorem str_append_ne_left {a : String} (b : String) (h : a ≠ "") :
    a ++ b ≠ "" := by
  intro hab
  apply h
  have hd := congrArg String.data hab
  rw [String.data_append] at hd
  have he : String.data "" = ([] : List Char) := rfl
  rw [he] at hd
  exact String.ext (List.append_eq_nil.mp hd).1

theorem str_append_ne_right {b : String} (a : String) (h : b ≠ "") :
    a ++ b ≠ "" := by
  intro hab
  apply h
  have hd := congrArg String.data hab
  rw [String.data_append] at hd
  have he : String.data "" = ([] : List Char) := rfl
  rw [he] at hd
  exact String.ext (List.append_eq_nil.mp hd).2

theorem flushDoc_ne_empty (title block : String) (m : DocMeta) :
    (flushDoc title block m).page_content ≠ "" := by
  show title ++ "\n\n" ++ pyStrip block ≠ ""
  exact str_append_ne_left _ (str_append_ne_right _ (by decide))

theorem flushedDocs_eq (s : ChunkState) (m : DocMeta) :
    flushedDocs s m = s.documents ++
      (if s.current_text_block = "" then []
       else [flushDoc s.current_title s.current_text_block m]) := by
  unfold flushedDocs
  split <;> simp

theorem step_last_meta (p : String) (e : Bool) (sI : El → Option String)
    (sT : String → Option String) (s : ChunkState) (i : Nat) (el : El) :
    (step p e sI sT s (i, el)).last_meta = some (mkMeta p el i) := by
  obtain ⟨k, t, m⟩ := el
  cases k <;> cases e <;> rfl

theorem foldl_step_last_meta (p : String) (e : Bool) (sI : El → Option String)
    (sT : String → Option String) :
    ∀ (l : List (Nat × El)) (s : ChunkState) (q : Nat × El),
      l.getLast? = some q →
      (l.foldl (step p e sI sT) s).last_meta = some (mkMeta p q.2 q.1) := by
  intro l
  induction l with
  | nil => intro s q h; simp at h
  | cons a t ih =>
    intro s q h
    cases t with
    | nil =>
      simp only [List.getLast?_singleton, Option.some.injEq] at h
      subst h
      obtain ⟨i, el⟩ := a
      rw [List.foldl_cons, List.foldl_nil]
      exact step_last_meta p e sI sT s i el
    | cons b t' =>
      rw [List.foldl_cons]
      exact ih _ q (by rw [List.getLast?_cons_cons] at h; exact h)

theorem foldl_step_meta_of_block (p : String) (e : Bool)
    (sI : El → Option String) (sT : String → Option String) :
    ∀ (l : List (Nat × El)) (s : ChunkState),
      (s.current_text_block ≠ "" → s.last_meta.isSome = true) →
      ((l.foldl (step p e sI sT) s).current_text_block ≠ "" →
        (l.foldl (step p e sI sT) s).last_meta.isSome = true) := by
  intro l
  induction l with
  | nil => exact fun s h => h
  | cons a t ih =>
    intro s h
    rw [List.foldl_cons]
    apply ih
    intro _
    obtain ⟨i, el⟩ := a
    rw [step_last_meta]
    rfl

theorem enumFrom_getLast? {α : Type} :
    ∀ (l : List α) (n : Nat),
      (l.enumFrom n).getLast? = l.getLast?.map (fun a => (n + l.length - 1, a)) := by
  intro l
  induction l with
  | nil => intro n; rfl
  | cons a t ih =>
    intro n
    cases t with
    | nil => simp
    | cons b t' =>
      rw [List.enumFrom_cons, List.enumFrom_cons, List.getLast?_cons_cons,
        ← List.enumFrom_cons, ih (n + 1), List.getLast?_cons_cons]
      cases h : (b :: t').getLast? with
      | none => simp
      | some x =>
        simp only [Option.map_some']
        have : n + 1 + (b :: t').length - 1 = n + (a :: b :: t').length - 1 := by
          simp only [List.length_cons]
          omega
        rw [this]

theorem snd_mem_of_mem_enumFrom {α : Type} :
    ∀ (l : List α) (n : Nat) (q : Nat × α), q ∈ l.enumFrom n → q.2 ∈ l := by
  intro l
  induction l with
  | nil => intro n q h; simp at h
  | cons a t ih =>
    intro n q hq
    rw [List.enumFrom_cons] at hq
    rcases List.mem_cons.mp hq with h | h
    · subst h; exact List.mem_cons_self _ _
    · exact List.mem_cons_of_mem _ (ih _ _ h)

theorem enumFrom_eq_nil {α : Type} (l : List α) (n : Nat) :
    l.enumFrom n = [] ↔ l = [] := by
  cases l <;> simp

theorem pairwise_le_of_all_eq (c : Nat) :
    ∀ (l : List Nat), (∀ x ∈ l, x = c) → l.Pairwise (· ≤ ·) := by
  intro l
  induction l with
  | nil => intro _; exact List.Pairwise.nil
  | cons a t ih =>
    intro h
    refine List.Pairwise.cons ?_ (ih fun x hx => h x (List.mem_cons_of_mem _ hx))
    intro b hb
    rw [h a (List.mem_cons_self _ _), h b (List.mem_cons_of_mem _ hb)]

theorem step_documents (p : String) (e : Bool) (sI : El → Option String)
    (sT : String → Option String) (s : ChunkState) (i : Nat) (el : El) :
    ∃ new : List Document,
      (step p e sI sT s (i, el)).documents = s.documents ++ new ∧
      ∀ d ∈ new, d.metadata = mkMeta p el i ∧ d.page_content ≠ "" := by
  obtain ⟨k, t, m⟩ := el
  have hflush : ∀ d ∈ (if s.current_text_block = "" then ([] : List Document)
      else [flushDoc s.current_title s.current_text_block (mkMeta p ⟨k, t, m⟩ i)]),
      d.metadata = mkMeta p ⟨k, t, m⟩ i ∧ d.page_content ≠ "" := by
    split
    · intro d hd
      simp at hd
    · intro d hd
      rw [List.mem_singleton] at hd
      subst hd
      exact ⟨rfl, flushDoc_ne_empty _ _ _⟩
  cases k with
  | Title =>
      refine ⟨_, ?_, hflush⟩
      show flushedDocs s (mkMeta p ⟨.Title, t, m⟩ i) = _
      rw [flushedDocs_eq]
  | Header =>
      refine ⟨_, ?_, hflush⟩
      show flushedDocs s (mkMeta p ⟨.Header, t, m⟩ i) = _
      rw [flushedDocs_eq]
  | NarrativeText => exact ⟨[], (List.append_nil _).symm, by simp⟩
  | ListItem => exact ⟨[], (List.append_nil _).symm, by simp⟩
  | Text => exact ⟨[], (List.append_nil _).symm, by simp⟩
  | Image => exact ⟨[], (List.append_nil _).symm, by simp⟩
  | Table => exact ⟨[], (List.append_nil _).symm, by simp⟩

theorem foldl_step_docs_ne_empty (p : String) (e : Bool)
    (sI : El → Option String) (sT : String → Option String) :
    ∀ (l : List (Nat × El)) (s : ChunkState),
      (∀ d ∈ s.documents, d.page_content ≠ "") →
      ∀ d ∈ (l.foldl (step p e sI sT) s).documents, d.page_content ≠ "" := by
  intro l
  induction l with
  | nil => exact fun s h => h
  | cons a t ih =>
    intro s h
    rw [List.foldl_cons]
    apply ih
    obtain ⟨i, el⟩ := a
    obtain ⟨new, hnew, hprop⟩ := step_documents p e sI sT s i el
    rw [hnew]
    intro d hd
    rcases List.mem_append.mp hd with h1 | h2
    · exact h d h1
    · exact (hprop d h2).2

theorem foldl_step_ids_sorted (p : String) (e : Bool)
    (sI : El → Option String) (sT : String → Option String) :
    ∀ (t : List El) (n : Nat) (s : ChunkState),
      ((s.documents.map fun d => d.metadata.element_id).Pairwise (· ≤ ·)) →
      (∀ d ∈ s.documents, d.metadata.element_id < n) →
      ((((t.enumFrom n).foldl (step p e sI sT) s).documents.map
          fun d => d.metadata.element_id).Pairwise (· ≤ ·)) ∧
        ∀ d ∈ ((t.enumFrom n).foldl (step p e sI sT) s).documents,
          d.metadata.element_id < n + t.length := by
  intro t
  induction t with
  | nil =>
    intro n s h1 h2
    exact ⟨h1, fun d hd => by simpa using h2 d hd⟩
  | cons a t' ih =>
    intro n s h1 h2
    rw [List.enumFrom_cons, List.foldl_cons]
    obtain ⟨new, hnew, hprop⟩ := step_documents p e sI sT s n a
    have hids : ∀ d ∈ new, d.metadata.element_id = n := by
      intro d hd
      rw [(hprop d hd).1]
      rfl
    have hstep1 : (((step p e sI sT s (n, a)).documents.map
        fun d => d.metadata.element_id).Pairwise (· ≤ ·)) := by
      rw [hnew, List.map_append, List.pairwise_append]
      refine ⟨h1, ?_, ?_⟩
      · apply pairwise_le_of_all_eq n
        intro x hx
        rcases List.mem_map.mp hx with ⟨d, hd, rfl⟩
        exact hids d hd
      · intro x hx y hy
        rcases List.mem_map.mp hx with ⟨d, hd, rfl⟩
        rcases List.mem_map.mp hy with ⟨d', hd', rfl⟩
        rw [hids d' hd']
        exact Nat.le_of_lt (h2 d hd)
    have hstep2 : ∀ d ∈ (step p e sI sT s (n, a)).documents,
        d.metadata.element_id < n + 1 := by
      rw [hnew]
      intro d hd
      rcases List.mem_append.mp hd with hm | hm
      · exact Nat.lt_succ_of_lt (h2 d hm)
      · rw [hids d hm]; exact Nat.lt_succ_self n
    obtain ⟨g1, g2⟩ := ih (n + 1) (step p e sI sT s (n, a)) hstep1 hstep2
    refine ⟨g1, ?_⟩
    intro d hd
    have := g2 d hd
    simp only [List.length_cons]
    omega

theorem foldl_step_oracle_free (p : String)
    (sI sI' : El → Option String) (sT sT' : String → Option String) :
    step p false sI sT = step p false sI' sT' := by
  funext s ie
  obtain ⟨i, el⟩ := ie
  obtain ⟨k, t, m⟩ := el
  cases k <;> rfl

theorem foldl_step_no_title (p : String) (e : Bool) (sI : El → Option String)
    (sT : String → Option String) :
    ∀ (l : List (Nat × El)) (s : ChunkState),
      (∀ q ∈ l, isTitleHeader q.2 = false) →
      ((l.foldl (step p e sI sT) s).documents = s.documents ∧
        (l.foldl (step p e sI sT) s).current_title = s.current_title ∧
        ((l.foldl (step p e sI sT) s).current_text_block = "" ↔
          (s.current_text_block = "" ∧ l = []))) := by
  intro l
  induction l with
  | nil =>
    intro s h
    exact ⟨rfl, rfl, by simp⟩
  | cons a t ih =>
    intro s h
    rw [List.foldl_cons]
    obtain ⟨i, el⟩ := a
    obtain ⟨k, txt, m⟩ := el
    have hth := h (i, ⟨k, txt, m⟩) (List.mem_cons_self _ _)
    have hrest : ∀ q ∈ t, isTitleHeader q.2 = false :=
      fun q hq => h q (List.mem_cons_of_mem _ hq)
    have hstep : step p e sI sT s (i, ⟨k, txt, m⟩) =
        { s with
          current_text_block := s.current_text_block ++ txt ++ "\n"
          last_meta := some (mkMeta p ⟨k, txt, m⟩ i) } := by
      cases k with
      | Title => simp [isTitleHeader] at hth
      | Header => simp [isTitleHeader] at hth
      | NarrativeText => rfl
      | ListItem => rfl
      | Text => rfl
      | Image => rfl
      | Table => rfl
    rw [hstep]
    obtain ⟨g1, g2, g3⟩ := ih _ hrest
    refine ⟨g1, g2, ?_⟩
    rw [g3]
    have hne : s.current_text_block ++ txt ++ "\n" ≠ "" :=
      str_append_ne_right _ (by decide)
    constructor
    · rintro ⟨h1, _⟩
      exact absurd h1 hne
    · rintro ⟨_, h2⟩
      exact absurd h2 (by simp)

theorem enum_eq_enumFrom {α : Type} (l : List α) : l.enum = l.enumFrom 0 := rfl

theorem partition_eq_error_of_guard (p : String) (elements : List El) (e : Bool)
    (key : Option String) (sI : El → Option String) (sT : String → Option String)
    (hg : (e && !strTruthy key) = true) :
    partition_and_chunk p elements e key sI sT =
      Except.error "OpenAI API key is required for enhanced processing." := by
  unfold partition_and_chunk
  rw [hg]
  rfl

theorem partition_eq_of_guard (p : String) (elements : List El) (e : Bool)
    (key : Option String) (sI : El → Option String) (sT : String → Option String)
    (hg : (e && !strTruthy key) = false) :
    partition_and_chunk p elements e key sI sT =
      (if (chunkFold p e sI sT elements).current_text_block = "" then
        Except.ok (chunkFold p e sI sT elements).documents
      else
        match (chunkFold p e sI sT elements).last_meta with
        | some m => Except.ok ((chunkFold p e sI sT elements).documents ++
            [flushDoc (chunkFold p e sI sT elements).current_title
              (chunkFold p e sI sT elements).current_text_block m])
        | none => Except.error "NameError: name 'metadata' is not defined") := by
  unfold partition_and_chunk
  rw [hg]
  rfl

theorem chunkFold_meta_of_block (p : String) (e : Bool)
    (sI : El → Option String) (sT : String → Option String) (elements : List El)
    (hb : (chunkFold p e sI sT elements).current_text_block ≠ "") :
    (chunkFold p e sI sT elements).last_meta.isSome = true := by
  refine foldl_step_meta_of_block p e sI sT elements.enum initState ?_ hb
  intro hcontra
  exact absurd rfl hcontra

theorem chunkFold_oracle_free (p : String) (elements : List El)
    (sI sI' : El → Option String) (sT sT' : String → Option String) :
    chunkFold p false sI sT elements = chunkFold p false sI' sT' elements := by
  unfold chunkFold
  rw [foldl_step_oracle_free p sI sI' sT sT']

theorem chunkFold_docs_ne_empty (p : String) (e : Bool)
    (sI : El → Option String) (sT : String → Option String) (elements : List El) :
    ∀ d ∈ (chunkFold p e sI sT elements).documents, d.page_content ≠ "" := by
  apply foldl_step_docs_ne_empty p e sI sT elements.enum initState
  intro d hd
  simp [initState] at hd

theorem chunkFold_ids_sorted (p : String) (e : Bool)
    (sI : El → Option String) (sT : String → Option String) (elements : List El) :
    (((chunkFold p e sI sT elements).documents.map
        fun d => d.metadata.element_id).Pairwise (· ≤ ·)) ∧
      ∀ d ∈ (chunkFold p e sI sT elements).documents,
        d.metadata.element_id < elements.length := by
  obtain ⟨h1, h2⟩ := foldl_step_ids_sorted p e sI sT elements 0 initState
    (by simp [initState]) (by simp [initState])
  exact ⟨h1, fun d hd => by have := h2 d hd; omega⟩

theorem chunkFold_last_meta (p : String) (e : Bool)
    (sI : El → Option String) (sT : String → Option String) (elements : List El)
    (el : El) (h : elements.getLast? = some el) :
    (chunkFold p e sI sT elements).last_meta =
      some (mkMeta p el (elements.length - 1)) := by
  have hq : (elements.enumFrom 0).getLast? = some (0 + elements.length - 1, el) := by
    rw [enumFrom_getLast?, h]
    rfl
  have hfold := foldl_step_last_meta p e sI sT (elements.enumFrom 0) initState _ hq
  rw [Nat.zero_add] at hfold
  exact hfold

/-! ### Claims -/

/-- C1 (counterexample): `create_retriever` on the empty document list
does not fail with an error: it returns `Except.ok none` — the Python
function logs a warning and returns `None` instead of raising an
`EmptyInputError`-style exception. -/
theorem create_retriever_empty_cex :
    create_retriever [] "sk-test" 5 = Except.ok none := rfl

/-- C1 (amended): for the empty document sequence, every call of
`create_retriever` returns `None` — never a usable retriever handle, but
a plain `None` return rather than a raised `EmptyInputError`. -/
theorem create_retriever_empty_no_handle :
    ∀ (key : String) (k : Nat), create_retriever [] key k = Except.ok none :=
  fun _ _ => rfl

/-- C2: with `use_enhanced_processing = true` and a missing (or empty)
OpenAI key, `partition_and_chunk` raises its `ValueError` before
processing any element: the run produces the same error for every element
sequence and emits no `RetrievalUnit`. -/
theorem chunk_enhanced_requires_key (pdf : String) (elements : List El)
    (key : Option String) (sI : El → Option String) (sT : String → Option String)
    (h : strTruthy key = false) :
    partition_and_chunk pdf elements true key sI sT =
      Except.error "OpenAI API key is required for enhanced processing." := by
  apply partition_eq_error_of_guard
  rw [h]
  rfl

/-- C2 witness: a concrete enhanced run over a non-empty element sequence
with no key fails with the configuration error. -/
theorem chunk_enhanced_requires_key_witness :
    strTruthy none = false ∧
      partition_and_chunk "doc.pdf" scenarioElements true none failSumm failTableSumm =
        Except.error "OpenAI API key is required for enhanced processing." :=
  ⟨rfl, chunk_enhanced_requires_key "doc.pdf" scenarioElements none failSumm
    failTableSumm rfl⟩

/-- C6: the spec scenario — Title "Intro", text "Hello world.", Title
"Section 2", text "More text.", enhanced = false — yields exactly two
units with contents "Intro\n\nHello world." and "Section 2\n\nMore
text." (each carrying its triggering element's metadata: element ids 2
and 3). -/
theorem chunk_scenario_two_sections :
    partition_and_chunk "doc.pdf" scenarioElements false none failSumm failTableSumm =
      Except.ok [⟨"Intro\n\nHello world.", ⟨"doc.pdf", 1, 2⟩⟩,
        ⟨"Section 2\n\nMore text.", ⟨"doc.pdf", 1, 3⟩⟩] := rfl

/-- C8: chunking the identical element sequence with the identical flag
(and identical collaborator responses) is deterministic; moreover with
`enhanced = false` the result does not depend on the key or on the
summarization collaborators at all. -/
theorem chunk_deterministic :
    (∀ (p : String) (elements : List El) (e : Bool) (key : Option String)
        (sI : El → Option String) (sT : String → Option String),
        partition_and_chunk p elements e key sI sT =
          partition_and_chunk p elements e key sI sT) ∧
    (∀ (p : String) (elements : List El) (key key' : Option String)
        (sI sI' : El → Option String) (sT sT' : String → Option String),
        partition_and_chunk p elements false key sI sT =
          partition_and_chunk p elements false key' sI' sT') := by
  refine ⟨fun _ _ _ _ _ _ => rfl, ?_⟩
  intro p elements key key' sI sI' sT sT'
  rw [partition_eq_of_guard p elements false key sI sT rfl,
    partition_eq_of_guard p elements false key' sI' sT' rfl,
    chunkFold_oracle_free p elements sI sI' sT sT']

/-- C10: for every non-empty document list, `create_retriever` builds the
same ensemble whatever `k` is passed (the Python parameter, default 5, is
never read): both sub-retriever depths are hard-coded to 10 and the
fusion weights to 0.7/0.3. -/
theorem create_retriever_ignores_k (documents : List Document) (key : String)
    (k k' : Nat) (h : documents ≠ []) :
    create_retriever documents key k =
      Except.ok (some
        { dense :=
            { documents := documents
              embedding_function :=
                { model := "text-embedding-3-large", api_key := key }
              search_k := 10 }
          bm25 := { documents := documents, k := 10 }
          weight_dense := 7/10
          weight_sparse := 3/10 }) ∧
    create_retriever documents key k = create_retriever documents key k' := by
  have hne : documents.isEmpty = false := by
    cases documents with
    | nil => exact absurd rfl h
    | cons a t => rfl
  unfold create_retriever
  rw [hne]
  exact ⟨rfl, rfl⟩

/-- C10 witness: a concrete one-document list, two different `k` values. -/
theorem create_retriever_ignores_k_witness :
    create_retriever [oneDoc] "sk-test" 5 = create_retriever [oneDoc] "sk-test" 99 :=
  (create_retriever_ignores_k [oneDoc] "sk-test" 5 99 (by decide)).2

/-- C3: the summarize-or-fallback code of `partition_and_chunk` is dead:
`isinstance(el, (NarrativeText, ListItem, Text))` is true for every
non-Title/Header element kind (`Image` and `Table` subclass `Text` in
`unstructured`), so no element ever reaches the enhanced branch; at the
failing input — a single image, enhanced processing, a valid key, a
failing summarizer — the program emits one text-flush unit with content
"\n\n" instead of the claimed "[Image under '']" fallback unit, and the
summarization collaborator is never invoked. -/
theorem chunk_fallback_unreachable :
    (∀ el : El, isTitleHeader el = true ∨ isTextKind el = true) ∧
      partition_and_chunk "doc.pdf" [imageEl] true (some "sk-test") failSumm
          failTableSumm =
        Except.ok [⟨"\n\n", ⟨"doc.pdf", 2, 0⟩⟩] := by
  constructor
  · intro el
    obtain ⟨k, t, m⟩ := el
    cases k <;> simp [isTitleHeader, isTextKind]
  · rfl

/-- C7: every unit emitted by a successful `partition_and_chunk` run has
non-empty content: an empty text block is never flushed, and every
emitted unit is a text flush containing the "\n\n" separator (the
bracketed image/table units of the dead enhanced branch would be
non-empty too). -/
theorem chunk_content_ne_empty (p : String) (elements : List El) (e : Bool)
    (key : Option String) (sI : El → Option String) (sT : String → Option String)
    (ds : List Document)
    (h : partition_and_chunk p elements e key sI sT = Except.ok ds) :
    ∀ d ∈ ds, d.page_content ≠ "" := by
  cases hg : (e && !strTruthy key) with
  | true =>
    rw [partition_eq_error_of_guard p elements e key sI sT hg] at h
    exact absurd h (by simp)
  | false =>
    rw [partition_eq_of_guard p elements e key sI sT hg] at h
    have hfold := chunkFold_docs_ne_empty p e sI sT elements
    by_cases hb : (chunkFold p e sI sT elements).current_text_block = ""
    · rw [if_pos hb] at h
      injection h with h'
      subst h'
      exact hfold
    · rw [if_neg hb] at h
      cases hm : (chunkFold p e sI sT elements).last_meta with
      | none =>
        rw [hm] at h
        exact absurd h (by simp)
      | some m =>
        rw [hm] at h
        injection h with h'
        subst h'
        intro d hd
        rcases List.mem_append.mp hd with h1 | h2
        · exact hfold d h1
        · rw [List.mem_singleton] at h2
          subst h2
          exact flushDoc_ne_empty _ _ _

/-- C7 witness: the first unit of the concrete two-section run has
non-empty content. -/
theorem chunk_content_ne_empty_witness :
    (⟨"Intro\n\nHello world.", ⟨"doc.pdf", 1, 2⟩⟩ : Document).page_content ≠ "" :=
  chunk_content_ne_empty "doc.pdf" scenarioElements false none failSumm failTableSumm
    [⟨"Intro\n\nHello world.", ⟨"doc.pdf", 1, 2⟩⟩,
     ⟨"Section 2\n\nMore text.", ⟨"doc.pdf", 1, 3⟩⟩]
    rfl _ (List.mem_cons_self _ _)

/-- C4 (counterexample): an Image element under enhanced processing does
not trigger a flush of the pending text block — no unit is emitted at
all, and the image's (empty) text is appended to the block instead — so
"the Title/Header or Image/Table currently being processed" overstates
the set of flush triggers. -/
theorem chunk_flush_metadata_quirk_cex :
    (step "doc.pdf" true failSumm failTableSumm midState (3, imageEl)).documents
        = [] ∧
      (step "doc.pdf" true failSumm failTableSumm midState
          (3, imageEl)).current_text_block = "Hello world.\n\n" :=
  ⟨rfl, rfl⟩

/-- C4 (amended): a flushed text block carries the metadata of the
element that triggered the flush — a Title/Header element; Image and
Table elements never trigger a flush, since the isinstance dispatch
routes them to the text-accumulation branch — and the end-of-sequence
flush carries the metadata of the last element of the sequence. -/
theorem chunk_flush_metadata_quirk :
    (∀ (p : String) (e : Bool) (sI : El → Option String)
        (sT : String → Option String) (s : ChunkState) (i : Nat) (el : El),
        isTitleHeader el = true → s.current_text_block ≠ "" →
        (step p e sI sT s (i, el)).documents =
          s.documents ++
            [flushDoc s.current_title s.current_text_block (mkMeta p el i)]) ∧
    (∀ (p : String) (e : Bool) (sI : El → Option String)
        (sT : String → Option String) (s : ChunkState) (i : Nat) (el : El),
        (el.kind = ElKind.Image ∨ el.kind = ElKind.Table) →
        (step p e sI sT s (i, el)).documents = s.documents) ∧
    (∀ (p : String) (e : Bool) (key : Option String) (sI : El → Option String)
        (sT : String → Option String) (elements : List El) (el : El)
        (ds : List Document),
        elements.getLast? = some el →
        partition_and_chunk p elements e key sI sT = Except.ok ds →
        (chunkFold p e sI sT elements).current_text_block ≠ "" →
        ds.getLast? = some (flushDoc (chunkFold p e sI sT elements).current_title
          (chunkFold p e sI sT elements).current_text_block
          (mkMeta p el (elements.length - 1)))) := by
  refine ⟨?_, ?_, ?_⟩
  · intro p e sI sT s i el hth hb
    obtain ⟨k, t, m⟩ := el
    cases k with
    | Title =>
      show flushedDocs s (mkMeta p ⟨ElKind.Title, t, m⟩ i) = _
      unfold flushedDocs
      rw [if_neg hb]
    | Header =>
      show flushedDocs s (mkMeta p ⟨ElKind.Header, t, m⟩ i) = _
      unfold flushedDocs
      rw [if_neg hb]
    | NarrativeText => simp [isTitleHeader] at hth
    | ListItem => simp [isTitleHeader] at hth
    | Text => simp [isTitleHeader] at hth
    | Image => simp [isTitleHeader] at hth
    | Table => simp [isTitleHeader] at hth
  · intro p e sI sT s i el hk
    obtain ⟨k, t, m⟩ := el
    rcases hk with hk' | hk'
    · have hE : k = ElKind.Image := hk'
      subst hE
      rfl
    · have hE : k = ElKind.Table := hk'
      subst hE
      rfl
  · intro p e key sI sT elements el ds hlast hok hb
    have hg : (e && !strTruthy key) = false := by
      cases hgc : (e && !strTruthy key) with
      | false => rfl
      | true =>
        rw [partition_eq_error_of_guard p elements e key sI sT hgc] at hok
        exact absurd hok (by simp)
    rw [partition_eq_of_guard p elements e key sI sT hg, if_neg hb,
      chunkFold_last_meta p e sI sT elements el hlast] at hok
    injection hok with h'
    subst h'
    exact List.getLast?_concat _

/-- C4 witness: a Title flush from the mid-pass state carries the title
element's metadata (element id 2), the Image element emits nothing from
the same state, and the two-section run's final flush carries the last
element's metadata (element id 3). -/
theorem chunk_flush_metadata_quirk_witness :
    ((step "doc.pdf" false failSumm failTableSumm midState
        (2, ⟨ElKind.Title, "Section 2", bareMeta⟩)).documents =
      midState.documents ++
        [flushDoc midState.current_title midState.current_text_block
          (mkMeta "doc.pdf" ⟨ElKind.Title, "Section 2", bareMeta⟩ 2)]) ∧
    ((step "doc.pdf" true failSumm failTableSumm midState (3, imageEl)).documents =
      midState.documents) ∧
    ([⟨"Intro\n\nHello world.", ⟨"doc.pdf", 1, 2⟩⟩,
      ⟨"Section 2\n\nMore text.", ⟨"doc.pdf", 1, 3⟩⟩] : List Document).getLast? =
      some (flushDoc
        (chunkFold "doc.pdf" false failSumm failTableSumm scenarioElements).current_title
        (chunkFold "doc.pdf" false failSumm failTableSumm scenarioElements).current_text_block
        (mkMeta "doc.pdf" ⟨ElKind.NarrativeText, "More text.", bareMeta⟩
          (scenarioElements.length - 1))) :=
  ⟨chunk_flush_metadata_quirk.1 "doc.pdf" false failSumm failTableSumm midState 2
      ⟨ElKind.Title, "Section 2", bareMeta⟩ rfl (by decide),
   chunk_flush_metadata_quirk.2.1 "doc.pdf" true failSumm failTableSumm midState 3
      imageEl (Or.inl rfl),
   chunk_flush_metadata_quirk.2.2 "doc.pdf" false none failSumm failTableSumm
      scenarioElements ⟨ElKind.NarrativeText, "More text.", bareMeta⟩
      [⟨"Intro\n\nHello world.", ⟨"doc.pdf", 1, 2⟩⟩,
       ⟨"Section 2\n\nMore text.", ⟨"doc.pdf", 1, 3⟩⟩]
      rfl rfl (by decide)⟩

/-- C5 (counterexample): a sequence holding a single Image element — zero
Title/Header elements and zero narrative-text elements — still produces
exactly one unit: the image's empty text is routed to the text block by
the isinstance dispatch and flushed as "\n\n", refuting "one unit iff
some narrative text exists". -/
theorem chunk_no_titles_cex :
    isTitleHeader imageEl = false ∧ imageEl.kind = ElKind.Image ∧
      partition_and_chunk "doc.pdf" [imageEl] false none failSumm failTableSumm =
        Except.ok [⟨"\n\n", ⟨"doc.pdf", 2, 0⟩⟩] :=
  ⟨rfl, rfl, rfl⟩

/-- C5 (amended): for every element sequence containing zero Title/Header
elements, a successful chunking run (any flag value) produces at most one
RetrievalUnit — exactly one iff the sequence is non-empty, since every
non-title element (images and tables included) appends its text to the
block — and every emitted unit's title prefix is the empty string. -/
theorem chunk_no_titles (p : String) (elements : List El) (e : Bool)
    (key : Option String) (sI : El → Option String) (sT : String → Option String)
    (ds : List Document)
    (hnt : ∀ el ∈ elements, isTitleHeader el = false)
    (h : partition_and_chunk p elements e key sI sT = Except.ok ds) :
    ds.length ≤ 1 ∧ (ds.length = 1 ↔ elements ≠ []) ∧
      ∀ d ∈ ds, ∃ rest, d.page_content = "\n\n" ++ rest := by
  have hg : (e && !strTruthy key) = false := by
    cases hgc : (e && !strTruthy key) with
    | false => rfl
    | true =>
      rw [partition_eq_error_of_guard p elements e key sI sT hgc] at h
      exact absurd h (by simp)
  rw [partition_eq_of_guard p elements e key sI sT hg] at h
  have hnt' : ∀ q ∈ elements.enumFrom 0, isTitleHeader q.2 = false :=
    fun q hq => hnt q.2 (snd_mem_of_mem_enumFrom elements 0 q hq)
  obtain ⟨g1, g2, g3⟩ := foldl_step_no_title p e sI sT (elements.enumFrom 0)
    initState hnt'
  have hdocs : (chunkFold p e sI sT elements).documents = [] := g1
  have htitle : (chunkFold p e sI sT elements).current_title = "" := g2
  by_cases hb : (chunkFold p e sI sT elements).current_text_block = ""
  · have hempty : elements = [] := (enumFrom_eq_nil elements 0).mp (g3.mp hb).2
    rw [if_pos hb] at h
    injection h with h'
    subst h'
    rw [hdocs]
    refine ⟨by simp, ?_, by simp⟩
    simp only [List.length_nil, hempty]
    constructor
    · intro h0
      exact absurd h0 (by decide)
    · intro hne
      exact absurd rfl hne
  · rw [if_neg hb] at h
    obtain ⟨m, hm⟩ := Option.isSome_iff_exists.mp
      (chunkFold_meta_of_block p e sI sT elements hb)
    rw [hm] at h
    injection h with h'
    subst h'
    have hne : elements ≠ [] := by
      intro hempty
      subst hempty
      exact hb rfl
    rw [hdocs, htitle]
    refine ⟨by simp, ⟨fun _ => hne, fun _ => by simp⟩, ?_⟩
    intro d hd
    simp only [List.nil_append, List.mem_singleton] at hd
    subst hd
    exact ⟨pyStrip (chunkFold p e sI sT elements).current_text_block, rfl⟩

/-- C5 witness: one narrative-text element and no titles: the amended
bound holds on the concrete run producing one unit. -/
theorem chunk_no_titles_witness :
    ([⟨"\n\nHello world.", ⟨"doc.pdf", 1, 0⟩⟩] : List Document).length ≤ 1 :=
  (chunk_no_titles "doc.pdf" [narrEl] false none failSumm failTableSumm
    [⟨"\n\nHello world.", ⟨"doc.pdf", 1, 0⟩⟩] (by decide) rfl).1

/-- C9 (counterexample): the empty element sequence does not always yield
an empty output with no error: with `enhanced = true` and no key the run
raises the configuration `ValueError` instead. -/
theorem chunk_empty_cex :
    partition_and_chunk "doc.pdf" [] true none failSumm failTableSumm =
      Except.error "OpenAI API key is required for enhanced processing." := rfl

/-- C9 (amended): every successful run emits units in input order — the
`element_id` values of the output are non-decreasing — and the empty
element sequence yields an empty output with no error whenever the
enhanced-key precondition is met (`enhanced = false`, or a truthy key). -/
theorem chunk_order_preserved :
    (∀ (p : String) (elements : List El) (e : Bool) (key : Option String)
        (sI : El → Option String) (sT : String → Option String)
        (ds : List Document),
        partition_and_chunk p elements e key sI sT = Except.ok ds →
        (ds.map fun d => d.metadata.element_id).Pairwise (· ≤ ·)) ∧
    (∀ (p : String) (e : Bool) (key : Option String) (sI : El → Option String)
        (sT : String → Option String),
        (e = true → strTruthy key = true) →
        partition_and_chunk p [] e key sI sT = Except.ok []) := by
  constructor
  · intro p elements e key sI sT ds h
    cases hg : (e && !strTruthy key) with
    | true =>
      rw [partition_eq_error_of_guard p elements e key sI sT hg] at h
      exact absurd h (by simp)
    | false =>
      rw [partition_eq_of_guard p elements e key sI sT hg] at h
      obtain ⟨hsort, hbound⟩ := chunkFold_ids_sorted p e sI sT elements
      by_cases hb : (chunkFold p e sI sT elements).current_text_block = ""
      · rw [if_pos hb] at h
        injection h with h'
        subst h'
        exact hsort
      · rw [if_neg hb] at h
        have hne : elements ≠ [] := by
          intro hempty
          subst hempty
          exact hb rfl
        obtain ⟨lastEl, hlast⟩ := Option.isSome_iff_exists.mp
          (List.getLast?_isSome.mpr hne)
        rw [chunkFold_last_meta p e sI sT elements lastEl hlast] at h
        injection h with h'
        subst h'
        rw [List.map_append, List.pairwise_append]
        refine ⟨hsort, by simp, ?_⟩
        intro x hx y hy
        rcases List.mem_map.mp hx with ⟨d, hd, rfl⟩
        simp only [List.map_cons, List.map_nil, List.mem_singleton] at hy
        subst hy
        have h1 := hbound d hd
        have h2 : elements.length ≠ 0 := fun hc => hne (List.length_eq_zero.mp hc)
        show d.metadata.element_id ≤ elements.length - 1
        omega
  · intro p e key sI sT h
    cases e with
    | false => rfl
    | true =>
      rw [partition_eq_of_guard p [] true key sI sT (by rw [h rfl]; rfl)]
      rfl

/-- C9 witness: units of the two-section run have non-decreasing element
ids (2 then 3), and the empty run with `enhanced = false` returns `ok []`. -/
theorem chunk_order_preserved_witness :
    (([⟨"Intro\n\nHello world.", ⟨"doc.pdf", 1, 2⟩⟩,
       ⟨"Section 2\n\nMore text.", ⟨"doc.pdf", 1, 3⟩⟩] : List Document).map
        fun d => d.metadata.element_id).Pairwise (· ≤ ·) ∧
      partition_and_chunk "doc.pdf" [] false none failSumm failTableSumm =
        Except.ok [] :=
  ⟨chunk_order_preserved.1 "doc.pdf" scenarioElements false none failSumm
      failTableSumm
      [⟨"Intro\n\nHello world.", ⟨"doc.pdf", 1, 2⟩⟩,
       ⟨"Section 2\n\nMore text.", ⟨"doc.pdf", 1, 3⟩⟩] rfl,
   chunk_order_preserved.2 "doc.pdf" false none failSumm failTableSumm
      (fun hc => absurd hc (by decide))⟩

end RAG
